import Mathlib

/-!
Verification of the edit-tracking grid engine of the daily-update admin
front-end (the HistoricMetrics page): pending-edit tracking, the undo
stack, live aggregate recomputation, save semantics, value commitment
and keyboard navigation, embedded shallowly from the TypeScript source.
-/

namespace DailyUpdateAdmin

/-- The `data_type` field of a metric definition / historic metric entry. -/
inductive DataType
  | integer
  | decimal
  | percentage
  | text
  | duration
deriving DecidableEq, Repr

/-- A JavaScript value flowing through the edit callbacks:
`number | string` (with `undefined` modelled as `Option.none` around it).
Numbers are modelled as rationals. -/
inductive JSVal
  | num (q : Rat)
  | str (s : String)
deriving DecidableEq, Repr

/-- The pending-update object `{ value_numeric?: number; value_text?: string }`
stored in the `editedValues` map. -/
structure MetricValueUpdate where
  value_numeric : Option Rat := none
  value_text : Option String := none
deriving DecidableEq, Repr

/-- `HistoricMetricEntry` (the fields the grid engine reads). -/
structure HistoricMetricEntry where
  id : String
  agent_id : String
  metric_key : String
  data_type : DataType
  value_numeric : Option Rat := none
  value_text : Option String := none
deriving DecidableEq, Repr

/-- One element of the undo history stack (`EditAction` in the source). -/
structure EditAction where
  metricId : String
  oldValue : Option MetricValueUpdate := none
  newValue : Option MetricValueUpdate := none
deriving DecidableEq, Repr

/-! ### JavaScript `Map` semantics over association lists

`editedValues` is a JS `Map<string, ...>`: `get` returns the value for a
key or `undefined`, `set` replaces in place or appends, `delete` removes.
We model it as an association list with these operations. -/

/-- `Map.get`: the value stored at `k`, if any. -/
def mapGet (l : List (String × α)) (k : String) : Option α :=
  (l.find? (fun p => p.1 == k)).map (·.2)

/-- `Map.set`: replace the entry for `k` in place, or append it. -/
def mapSet (l : List (String × α)) (k : String) (v : α) : List (String × α) :=
  if l.any (fun p => p.1 == k) then
    l.map (fun p => if p.1 == k then (k, v) else p)
  else
    l ++ [(k, v)]

/-- `Map.delete`: remove the entry for `k`. -/
def mapDelete (l : List (String × α)) (k : String) : List (String × α) :=
  l.filter (fun p => p.1 != k)

theorem mapGet_nil (k : String) : mapGet ([] : List (String × α)) k = none := rfl

theorem mapGet_cons (hd : String × α) (tl : List (String × α)) (k : String) :
    mapGet (hd :: tl) k = if hd.1 = k then some hd.2 else mapGet tl k := by
  by_cases h : hd.1 = k
  · simp only [mapGet, if_pos h]
    rw [List.find?_cons_of_pos]
    · rfl
    · simpa using h
  · simp only [mapGet, if_neg h]
    rw [List.find?_cons_of_neg]
    simpa using h

theorem mapGet_replace_self (l : List (String × α)) (k : String) (v : α)
    (h : l.any (fun p => p.1 == k) = true) :
    mapGet (l.map (fun p => if p.1 == k then (k, v) else p)) k = some v := by
  induction l with
  | nil => simp at h
  | cons hd tl ih =>
    by_cases h1 : hd.1 = k
    · simp [mapGet_cons, h1]
    · have h2 : tl.any (fun p => p.1 == k) = true := by
        simpa [List.any_cons, h1] using h
      simpa [mapGet_cons, h1] using ih h2

theorem mapGet_replace_ne (l : List (String × α)) (k k' : String) (v : α)
    (h : k' ≠ k) :
    mapGet (l.map (fun p => if p.1 == k then (k, v) else p)) k' = mapGet l k' := by
  induction l with
  | nil => rfl
  | cons hd tl ih =>
    by_cases h1 : hd.1 = k
    · have hk : ¬ (k = k') := fun hh => h hh.symm
      have hh' : ¬ (hd.1 = k') := by rw [h1]; exact hk
      simpa [mapGet_cons, h1, hk, hh'] using ih
    · by_cases h3 : hd.1 = k'
      · have hk : ¬ (k' = k) := h
        simp [mapGet_cons, h1, h3, hk]
      · simpa [mapGet_cons, h1, h3] using ih

theorem mapGet_append_single_self (l : List (String × α)) (k : String) (v : α)
    (h : l.any (fun p => p.1 == k) = false) :
    mapGet (l ++ [(k, v)]) k = some v := by
  induction l with
  | nil => simp [mapGet_cons]
  | cons hd tl ih =>
    have h1 : ¬ (hd.1 = k) := by
      intro hh
      simp [List.any_cons, hh] at h
    have h2 : tl.any (fun p => p.1 == k) = false := by
      simpa [List.any_cons, h1] using h
    simpa [mapGet_cons, h1] using ih h2

theorem mapGet_append_single_ne (l : List (String × α)) (k k' : String) (v : α)
    (h : k' ≠ k) :
    mapGet (l ++ [(k, v)]) k' = mapGet l k' := by
  have hk : ¬ (k = k') := fun hh => h hh.symm
  induction l with
  | nil => simp [mapGet_cons, hk, mapGet_nil]
  | cons hd tl ih =>
    by_cases h3 : hd.1 = k'
    · simp [mapGet_cons, h3]
    · simpa [mapGet_cons, h3] using ih

theorem mapGet_set_self (l : List (String × α)) (k : String) (v : α) :
    mapGet (mapSet l k v) k = some v := by
  unfold mapSet
  cases hany : l.any (fun p => p.1 == k)
  · simpa [hany] using mapGet_append_single_self l k v hany
  · simpa [hany] using mapGet_replace_self l k v hany

theorem mapGet_set_ne (l : List (String × α)) (k k' : String) (v : α)
    (h : k' ≠ k) : mapGet (mapSet l k v) k' = mapGet l k' := by
  unfold mapSet
  cases hany : l.any (fun p => p.1 == k)
  · simpa [hany] using mapGet_append_single_ne l k k' v h
  · simpa [hany] using mapGet_replace_ne l k k' v h

theorem mapGet_delete_self (l : List (String × α)) (k : String) :
    mapGet (mapDelete l k) k = none := by
  induction l with
  | nil => rfl
  | cons hd tl ih =>
    by_cases h1 : hd.1 = k
    · simpa [mapDelete, List.filter_cons, h1] using ih
    · simpa [mapDelete, List.filter_cons, h1, mapGet_cons] using ih

theorem mapGet_delete_ne (l : List (String × α)) (k k' : String)
    (h : k' ≠ k) : mapGet (mapDelete l k) k' = mapGet l k' := by
  induction l with
  | nil => rfl
  | cons hd tl ih =>
    have hk : ¬ (k = k') := fun hh => h hh.symm
    by_cases h1 : hd.1 = k
    · simpa [mapDelete, List.filter_cons, h1, mapGet_cons, hk] using ih
    · by_cases h3 : hd.1 = k'
      · have hk' : ¬ (k' = k) := h
        simp [mapDelete, List.filter_cons, h1, mapGet_cons, h3, hk']
      · simpa [mapDelete, List.filter_cons, h1, mapGet_cons, h3] using ih

/-! ### The edit-tracking grid engine

`handleEdit` / `handleUndo` from the HistoricMetrics page, acting on the
`editedValues` map and the `undoStack`. -/

/-- The edit-tracking state owned by the grid session. -/
structure GridState where
  editedValues : List (String × MetricValueUpdate) := []
  undoStack : List EditAction := []
deriving DecidableEq, Repr

/-- `const isNumeric = metricEntry.data_type !== 'text' && metricEntry.data_type !== 'duration'`. -/
def entryIsNumeric (e : HistoricMetricEntry) : Bool :=
  e.data_type != DataType.text && e.data_type != DataType.duration

/-- The numeric component of a proposed value (the `newValue as number |
undefined` cast; call sites pass only numbers to numeric cells). -/
def asNum : Option JSVal → Option Rat
  | some (JSVal.num q) => some q
  | _ => none

/-- The text component of a proposed value (the `newValue as string |
undefined` cast; call sites pass only strings to text cells). -/
def asStr : Option JSVal → Option String
  | some (JSVal.str s) => some s
  | _ => none

/-- `const update = isNumeric ? { value_numeric: newValue } : { value_text: newValue }`. -/
def editUpdate (e : HistoricMetricEntry) (newValue : Option JSVal) : MetricValueUpdate :=
  if entryIsNumeric e then { value_numeric := asNum newValue }
  else { value_text := asStr newValue }

/-- `const originalValue = isNumeric ? metricEntry.value_numeric : metricEntry.value_text`. -/
def entryOriginalValue (e : HistoricMetricEntry) : Option JSVal :=
  if entryIsNumeric e then e.value_numeric.map JSVal.num
  else e.value_text.map JSVal.str

/-- The wrapped original value used for the undo action when the record has
no pending edit:
`isNumeric ? { value_numeric: originalValue } : { value_text: originalValue }`. -/
def entryOriginalUpdate (e : HistoricMetricEntry) : MetricValueUpdate :=
  if entryIsNumeric e then { value_numeric := e.value_numeric }
  else { value_text := e.value_text }

/-- The `oldValue` of the recorded undo action:
`previousEdit ?? (originalValue !== undefined ? wrapped original : undefined)`. -/
def beforeStateOf (editedValues : List (String × MetricValueUpdate))
    (e : HistoricMetricEntry) : Option MetricValueUpdate :=
  match mapGet editedValues e.id with
  | some previousEdit => some previousEdit
  | none =>
    if (entryOriginalValue e).isSome then some (entryOriginalUpdate e) else none

/-- `handleEdit(metricEntry, newValue)`: records an undo action, then removes
the entry when the proposed value equals the original fetched value and
otherwise stores the update; the action is appended unconditionally. -/
def handleEdit (metricEntry : HistoricMetricEntry) (newValue : Option JSVal)
    (st : GridState) : GridState :=
  let update := editUpdate metricEntry newValue
  let action : EditAction :=
    { metricId := metricEntry.id
      oldValue := beforeStateOf st.editedValues metricEntry
      newValue :=
        if newValue ≠ entryOriginalValue metricEntry then some update else none }
  { editedValues :=
      if newValue = entryOriginalValue metricEntry then
        mapDelete st.editedValues metricEntry.id
      else
        mapSet st.editedValues metricEntry.id update
    undoStack := st.undoStack ++ [action] }

/-- `handleUndo()`: no-op on an empty stack; otherwise pops the most recent
action and, when its `oldValue` is `undefined`, deletes the record's entry,
else writes `oldValue` back into `editedValues`. -/
def handleUndo (st : GridState) : GridState :=
  match st.undoStack.getLast? with
  | none => st
  | some lastAction =>
    { editedValues :=
        match lastAction.oldValue with
        | none => mapDelete st.editedValues lastAction.metricId
        | some u => mapSet st.editedValues lastAction.metricId u
      undoStack := st.undoStack.dropLast }

/-- A sequence of `handleEdit` calls, applied left to right. -/
def applyAll (edits : List (HistoricMetricEntry × Option JSVal))
    (st : GridState) : GridState :=
  edits.foldl (fun s p => handleEdit p.1 p.2 s) st

/-- `n` successive `handleUndo` calls. -/
def undoN : Nat → GridState → GridState
  | 0, st => st
  | n + 1, st => undoN n (handleUndo st)

/-- The value the grid displays for a cell (`currentValue` in the render
path): the pending edit's `value_numeric ?? value_text` when the record is
edited, otherwise the fetched value matching the metric's data kind. -/
def currentValue (editedValues : List (String × MetricValueUpdate))
    (entry : HistoricMetricEntry) : Option JSVal :=
  match mapGet editedValues entry.id with
  | some u =>
    match u.value_numeric with
    | some q => some (JSVal.num q)
    | none => u.value_text.map JSVal.str
  | none =>
    if entry.data_type == DataType.text || entry.data_type == DataType.duration then
      entry.value_text.map JSVal.str
    else
      entry.value_numeric.map JSVal.num

/-- The grid state created with a freshly loaded snapshot: both the
pending-edit map and the undo stack are empty. -/
def freshGridState : GridState := { editedValues := [], undoStack := [] }

/-! ### Basic facts about the engine's transitions -/

theorem undoN_succ' (n : Nat) : ∀ st : GridState, undoN (n + 1) st = handleUndo (undoN n st) := by
  induction n with
  | zero => intro st; rfl
  | succ m ih =>
    intro st
    show undoN (m + 1) (handleUndo st) = _
    rw [ih (handleUndo st)]
    rfl

theorem handleEdit_editedValues (e : HistoricMetricEntry) (v : Option JSVal) (st : GridState) :
    (handleEdit e v st).editedValues =
      if v = entryOriginalValue e then mapDelete st.editedValues e.id
      else mapSet st.editedValues e.id (editUpdate e v) := rfl

theorem handleEdit_undoStack (e : HistoricMetricEntry) (v : Option JSVal) (st : GridState) :
    (handleEdit e v st).undoStack = st.undoStack ++
      [{ metricId := e.id
         oldValue := beforeStateOf st.editedValues e
         newValue := if v ≠ entryOriginalValue e then some (editUpdate e v) else none }] := rfl

theorem handleEdit_mapGet_ne (e : HistoricMetricEntry) (v : Option JSVal) (st : GridState)
    (id : String) (h : id ≠ e.id) :
    mapGet (handleEdit e v st).editedValues id = mapGet st.editedValues id := by
  rw [handleEdit_editedValues]
  by_cases hv : v = entryOriginalValue e
  · rw [if_pos hv]; exact mapGet_delete_ne _ _ _ h
  · rw [if_neg hv]; exact mapGet_set_ne _ _ _ _ h

theorem handleUndo_concat (st : GridState) (s : List EditAction) (a : EditAction)
    (h : st.undoStack = s ++ [a]) :
    handleUndo st =
      { editedValues :=
          match a.oldValue with
          | none => mapDelete st.editedValues a.metricId
          | some u => mapSet st.editedValues a.metricId u
        undoStack := s } := by
  have h1 : st.undoStack.getLast? = some a := by rw [h]; exact List.getLast?_concat s
  have h2 : st.undoStack.dropLast = s := by rw [h]; exact List.dropLast_concat
  unfold handleUndo
  rw [h1, h2]

/-- The grid's "is this a text-like cell" test, phrased through `entryIsNumeric`. -/
theorem textLike_eq_not_isNumeric (e : HistoricMetricEntry) :
    (e.data_type == DataType.text || e.data_type == DataType.duration) = !entryIsNumeric e := by
  unfold entryIsNumeric
  cases e.data_type <;> rfl

/-- The displayed value only depends on the pending-edit entry of the record. -/
theorem currentValue_congr (ed1 ed2 : List (String × MetricValueUpdate))
    (e : HistoricMetricEntry) (h : mapGet ed1 e.id = mapGet ed2 e.id) :
    currentValue ed1 e = currentValue ed2 e := by
  unfold currentValue
  rw [h]

/-- A pending-edit map whose entry for `e` is exactly the "before" state that
`handleEdit` would record over `ed` displays the same value as `ed`: the
wrapped original value displays as the original. -/
theorem currentValue_of_beforeState (ed ed' : List (String × MetricValueUpdate))
    (e : HistoricMetricEntry) (h : mapGet ed' e.id = beforeStateOf ed e) :
    currentValue ed' e = currentValue ed e := by
  unfold currentValue
  rw [h]
  unfold beforeStateOf
  cases hprev : mapGet ed e.id with
  | some u => simp [hprev]
  | none =>
    simp only [hprev]
    rw [textLike_eq_not_isNumeric]
    by_cases hnum : entryIsNumeric e
    · cases hval : e.value_numeric with
      | none => simp [entryOriginalValue, hnum, hval]
      | some q => simp [entryOriginalValue, entryOriginalUpdate, hnum, hval]
    · have hnum' : entryIsNumeric e = false := by simpa using hnum
      cases hval : e.value_text with
      | none => simp [entryOriginalValue, hnum', hval]
      | some s => simp [entryOriginalValue, entryOriginalUpdate, hnum', hval]

/-- C1 (amended): over any initial grid state, a sequence of `applyEdit`
calls followed by an equal number of `undo` calls (strict LIFO) restores the
undo stack exactly, leaves the pending-edit entry of every untouched record
identifier unchanged, and restores the displayed (effective) value of every
edited record; the `pendingEdits` mapping itself is not always restored — a
record that had no pending edit may come back mapped to its original value.
The hypothesis says that the edited entries are drawn consistently from one
snapshot: equal record identifiers mean equal records. -/
theorem applyAll_undoN_roundtrip
    (edits : List (HistoricMetricEntry × Option JSVal)) (st : GridState)
    (hcoh : ∀ p ∈ edits, ∀ q ∈ edits, p.1.id = q.1.id → p.1 = q.1) :
    (undoN edits.length (applyAll edits st)).undoStack = st.undoStack ∧
    (∀ id, (∀ p ∈ edits, p.1.id ≠ id) →
      mapGet (undoN edits.length (applyAll edits st)).editedValues id
        = mapGet st.editedValues id) ∧
    (∀ p ∈ edits,
      currentValue (undoN edits.length (applyAll edits st)).editedValues p.1
        = currentValue st.editedValues p.1) := by
  induction edits generalizing st with
  | nil =>
    exact ⟨rfl, fun id _ => rfl, fun p hp => absurd hp (List.not_mem_nil p)⟩
  | cons hd rest ih =>
    obtain ⟨e, v⟩ := hd
    have hcoh' : ∀ p ∈ rest, ∀ q ∈ rest, p.1.id = q.1.id → p.1 = q.1 :=
      fun p hp q hq => hcoh p (List.mem_cons_of_mem _ hp) q (List.mem_cons_of_mem _ hq)
    obtain ⟨ihstack, ihoff, ihon⟩ := ih (handleEdit e v st) hcoh'
    have hrun : undoN ((e, v) :: rest).length (applyAll ((e, v) :: rest) st)
        = handleUndo (undoN rest.length (applyAll rest (handleEdit e v st))) := by
      show undoN (rest.length + 1) (applyAll rest (handleEdit e v st)) = _
      exact undoN_succ' rest.length _
    have hmidstack : (undoN rest.length (applyAll rest (handleEdit e v st))).undoStack
        = st.undoStack ++
          [{ metricId := e.id
             oldValue := beforeStateOf st.editedValues e
             newValue := if v ≠ entryOriginalValue e then some (editUpdate e v) else none }] := by
      rw [ihstack, handleEdit_undoStack]
    have hfin := handleUndo_concat _ st.undoStack _ hmidstack
    -- mapGet of the final map at the head record's identifier is exactly the
    -- recorded before-state
    have hheadget :
        mapGet (handleUndo (undoN rest.length (applyAll rest (handleEdit e v st)))).editedValues e.id
          = beforeStateOf st.editedValues e := by
      rw [hfin]
      cases hb : beforeStateOf st.editedValues e with
      | none => simpa [hb] using mapGet_delete_self _ e.id
      | some u => simpa [hb] using mapGet_set_self _ e.id u
    -- the final map agrees with the intermediate map away from the head record
    have hoffget : ∀ id, id ≠ e.id →
        mapGet (handleUndo (undoN rest.length (applyAll rest (handleEdit e v st)))).editedValues id
          = mapGet (undoN rest.length (applyAll rest (handleEdit e v st))).editedValues id := by
      intro id hid
      rw [hfin]
      cases hb : beforeStateOf st.editedValues e with
      | none => simpa [hb] using mapGet_delete_ne _ e.id id hid
      | some u => simpa [hb] using mapGet_set_ne _ e.id id u hid
    have hhead : currentValue
        (handleUndo (undoN rest.length (applyAll rest (handleEdit e v st)))).editedValues e
          = currentValue st.editedValues e :=
      currentValue_of_beforeState _ _ e hheadget
    refine ⟨?_, ?_, ?_⟩
    · rw [hrun, hfin]
    · intro id hid
      have hide : id ≠ e.id := fun hh =>
        hid (e, v) (List.mem_cons_self _ _) hh.symm
      rw [hrun, hoffget id hide,
        ihoff id (fun p hp => hid p (List.mem_cons_of_mem _ hp)),
        handleEdit_mapGet_ne e v st id hide]
    · intro p hp
      rcases List.mem_cons.mp hp with heq | hmem
      · rw [hrun]
        have : p.1 = e := by rw [heq]
        rw [this]
        exact hhead
      · by_cases hpe : p.1.id = e.id
        · have hp1 : p.1 = e := hcoh p hp (e, v) (List.mem_cons_self _ _) hpe
          rw [hrun, hp1]
          exact hhead
        · rw [hrun]
          calc
            currentValue
                (handleUndo (undoN rest.length (applyAll rest (handleEdit e v st)))).editedValues p.1
                = currentValue
                    (undoN rest.length (applyAll rest (handleEdit e v st))).editedValues p.1 :=
              currentValue_congr _ _ p.1 (hoffget p.1.id hpe)
            _ = currentValue (handleEdit e v st).editedValues p.1 := ihon p hmem
            _ = currentValue st.editedValues p.1 :=
              currentValue_congr _ _ p.1 (handleEdit_mapGet_ne e v st p.1.id hpe)

/-! ### Concrete snapshot fixtures (the spec's Alice/Bob "Dials" example) -/

/-- Alice's record for the integer metric "Dials", fetched value 10. -/
def dialsAliceEntry : HistoricMetricEntry :=
  { id := "r1", agent_id := "a1", metric_key := "dials",
    data_type := DataType.integer, value_numeric := some 10 }

/-- Bob's record for the integer metric "Dials", fetched value 20. -/
def dialsBobEntry : HistoricMetricEntry :=
  { id := "r2", agent_id := "a2", metric_key := "dials",
    data_type := DataType.integer, value_numeric := some 20 }

/-- The record lookup of the Alice/Bob snapshot. -/
def dialsRecords : String → Option HistoricMetricEntry := fun id =>
  if id = "r1" then some dialsAliceEntry
  else if id = "r2" then some dialsBobEntry
  else none

/-- C1 counterexample: one `applyEdit(Alice's record, 15)` followed by one
`undo()` does not restore the `pendingEdits` mapping that held before: the
record, absent initially, comes back mapped to its original value 10. -/
theorem undo_roundtrip_mapping_counterexample :
    mapGet (undoN 1 (applyAll [(dialsAliceEntry, some (JSVal.num 15))]
        freshGridState)).editedValues "r1"
      = some { value_numeric := some 10, value_text := none } ∧
    mapGet freshGridState.editedValues "r1" = none := by decide

/-- C1 witness: the amended round-trip theorem applied to the one-edit
Alice scenario. -/
theorem undo_roundtrip_effective_witness :
    currentValue (undoN 1 (applyAll [(dialsAliceEntry, some (JSVal.num 15))]
        freshGridState)).editedValues dialsAliceEntry
      = currentValue freshGridState.editedValues dialsAliceEntry :=
  (applyAll_undoN_roundtrip [(dialsAliceEntry, some (JSVal.num 15))] freshGridState
    (by decide)).2.2 (dialsAliceEntry, some (JSVal.num 15)) (by simp)

/-! ### C2: the no-no-op-edit invariant of `pendingEdits` -/

/-- A proposed value typed consistently with the record's data kind (the
spec's typing assumption on `applyEdit` inputs): numeric cells receive
numbers or `undefined`, text-like cells receive strings or `undefined`. -/
def kindConsistent (e : HistoricMetricEntry) : Option JSVal → Bool
  | none => true
  | some (JSVal.num _) => entryIsNumeric e
  | some (JSVal.str _) => !entryIsNumeric e

/-- The C2 invariant: every entry of the pending-edit map differs, in the
value slot matching the record's kind, from the record's original fetched
value. -/
def noNoOpPendingEdits (records : String → Option HistoricMetricEntry)
    (ed : List (String × MetricValueUpdate)) : Prop :=
  ∀ id u, mapGet ed id = some u →
    ∃ e, records id = some e ∧
      (if entryIsNumeric e then u.value_numeric ≠ e.value_numeric
       else u.value_text ≠ e.value_text)

theorem handleEdit_preserves_noNoOp
    (records : String → Option HistoricMetricEntry)
    (e : HistoricMetricEntry) (v : Option JSVal) (st : GridState)
    (hrec : records e.id = some e) (hkind : kindConsistent e v)
    (hinv : noNoOpPendingEdits records st.editedValues) :
    noNoOpPendingEdits records (handleEdit e v st).editedValues := by
  intro id u hget
  rw [handleEdit_editedValues] at hget
  by_cases hv : v = entryOriginalValue e
  · rw [if_pos hv] at hget
    by_cases hid : id = e.id
    · rw [hid, mapGet_delete_self] at hget
      exact absurd hget (by simp)
    · rw [mapGet_delete_ne _ e.id id hid] at hget
      exact hinv id u hget
  · rw [if_neg hv] at hget
    by_cases hid : id = e.id
    · subst hid
      rw [mapGet_set_self] at hget
      obtain rfl : editUpdate e v = u := by
        injection hget
      refine ⟨e, hrec, ?_⟩
      by_cases hnum : entryIsNumeric e
      · rw [if_pos hnum]
        match v with
        | none =>
          have horig : e.value_numeric ≠ none := by
            intro hh
            exact hv (by simp [entryOriginalValue, hnum, hh])
          simp [editUpdate, hnum, asNum]
          exact fun hh => horig hh.symm
        | some (JSVal.num q) =>
          have horig : e.value_numeric ≠ some q := by
            intro hh
            exact hv (by simp [entryOriginalValue, hnum, hh])
          simp [editUpdate, hnum, asNum]
          exact fun hh => horig hh.symm
        | some (JSVal.str s) =>
          exact absurd hkind (by simp [kindConsistent, hnum])
      · have hnum' : entryIsNumeric e = false := by simpa using hnum
        rw [if_neg hnum]
        match v with
        | none =>
          have horig : e.value_text ≠ none := by
            intro hh
            exact hv (by simp [entryOriginalValue, hnum', hh])
          simp [editUpdate, hnum', asStr]
          exact fun hh => horig hh.symm
        | some (JSVal.str s) =>
          have horig : e.value_text ≠ some s := by
            intro hh
            exact hv (by simp [entryOriginalValue, hnum', hh])
          simp [editUpdate, hnum', asStr]
          exact fun hh => horig hh.symm
        | some (JSVal.num q) =>
          exact absurd hkind (by simp [kindConsistent, hnum'])
    · rw [mapGet_set_ne _ e.id id _ hid] at hget
      exact hinv id u hget

theorem applyAll_preserves_noNoOp
    (records : String → Option HistoricMetricEntry)
    (edits : List (HistoricMetricEntry × Option JSVal)) :
    ∀ st : GridState,
      (∀ p ∈ edits, records p.1.id = some p.1) →
      (∀ p ∈ edits, kindConsistent p.1 p.2) →
      noNoOpPendingEdits records st.editedValues →
      noNoOpPendingEdits records (applyAll edits st).editedValues := by
  induction edits with
  | nil => exact fun st _ _ hinv => hinv
  | cons hd rest ih =>
    intro st hrec hkind hinv
    exact ih (handleEdit hd.1 hd.2 st)
      (fun p hp => hrec p (List.mem_cons_of_mem _ hp))
      (fun p hp => hkind p (List.mem_cons_of_mem _ hp))
      (handleEdit_preserves_noNoOp records hd.1 hd.2 st
        (hrec hd (List.mem_cons_self _ _)) (hkind hd (List.mem_cons_self _ _)) hinv)

/-- C2 (amended): from a freshly loaded snapshot, along any sequence of
`applyEdit` calls with snapshot-consistent records and kind-consistent
values, `pendingEdits` never contains an entry equal to the record's
original fetched value. (The full claim, which also allows `undo` steps in
the sequence, is false: see the counterexample.) -/
theorem applyEdits_no_noop_pending
    (records : String → Option HistoricMetricEntry)
    (edits : List (HistoricMetricEntry × Option JSVal))
    (hrec : ∀ p ∈ edits, records p.1.id = some p.1)
    (hkind : ∀ p ∈ edits, kindConsistent p.1 p.2) :
    noNoOpPendingEdits records (applyAll edits freshGridState).editedValues :=
  applyAll_preserves_noNoOp records edits freshGridState hrec hkind
    (fun _ _ hget => absurd hget (by simp [freshGridState, mapGet_nil]))

/-- C2 counterexample: the state reached from a fresh snapshot by
`applyEdit(Alice's record, 15)` then `undo()` has a pending entry whose
value equals the record's original fetched value 10. -/
theorem pending_noop_entry_reachable_counterexample :
    mapGet (undoN 1 (applyAll [(dialsAliceEntry, some (JSVal.num 15))]
        freshGridState)).editedValues dialsAliceEntry.id
      = some { value_numeric := some 10, value_text := none } ∧
    ({ value_numeric := some 10, value_text := none } : MetricValueUpdate).value_numeric
      = dialsAliceEntry.value_numeric := by decide

/-- C2 witness: the amended invariant theorem applied to the one-edit Alice
scenario; the stored pending value 15 differs from the original 10. -/
theorem applyEdits_no_noop_pending_witness :
    mapGet (applyAll [(dialsAliceEntry, some (JSVal.num 15))]
        freshGridState).editedValues "r1"
      = some { value_numeric := some 15, value_text := none } ∧
    ({ value_numeric := some 15, value_text := none } : MetricValueUpdate).value_numeric
      ≠ dialsAliceEntry.value_numeric := by
  constructor
  · decide
  · obtain ⟨e, he, hd⟩ :=
      applyEdits_no_noop_pending dialsRecords
        [(dialsAliceEntry, some (JSVal.num 15))]
        (by decide) (by decide)
        "r1" { value_numeric := some 15, value_text := none } (by decide)
    have heq : e = dialsAliceEntry := by
      simp [dialsRecords] at he
      exact he.symm
    rw [heq] at hd
    rw [if_pos (show entryIsNumeric dialsAliceEntry = true from rfl)] at hd
    exact hd

/-! ### C3: shape of the undo log and of the undo restore step -/

/-- C3 (amended): every `applyEdit(record, v)` appends exactly one
`UndoAction` — unconditionally, even for no-op edits — whose "before"
component is the record's current `pendingEdits` entry when one is present,
otherwise the record's *wrapped original value* when that value is defined,
and only otherwise the explicit no-pending-edit marker; and `undo()`, when
the popped action's "before" component is the no-pending marker, removes the
record from `pendingEdits`, otherwise sets the record's entry to that
"before" value. (The claim's description of the no-previous-edit case is
wrong on the code: see the counterexample.) -/
theorem applyEdit_logs_one_action_and_undo_restores
    (e : HistoricMetricEntry) (v : Option JSVal) (st : GridState) :
    ((handleEdit e v st).undoStack = st.undoStack ++
      [{ metricId := e.id
         oldValue :=
           match mapGet st.editedValues e.id with
           | some previousEdit => some previousEdit
           | none =>
             if (entryOriginalValue e).isSome then some (entryOriginalUpdate e) else none
         newValue := if v ≠ entryOriginalValue e then some (editUpdate e v) else none }]) ∧
    (∀ st2 : GridState, ∀ a : EditAction, st2.undoStack.getLast? = some a →
      (handleUndo st2).undoStack = st2.undoStack.dropLast ∧
      (a.oldValue = none →
        (handleUndo st2).editedValues = mapDelete st2.editedValues a.metricId) ∧
      (∀ u, a.oldValue = some u →
        (handleUndo st2).editedValues = mapSet st2.editedValues a.metricId u)) := by
  constructor
  · rw [handleEdit_undoStack]
    rfl
  · intro st2 a hlast
    unfold handleUndo
    rw [hlast]
    refine ⟨rfl, ?_, ?_⟩
    · intro hnone
      show (match a.oldValue with
        | none => mapDelete st2.editedValues a.metricId
        | some u => mapSet st2.editedValues a.metricId u)
          = mapDelete st2.editedValues a.metricId
      rw [hnone]
    · intro u hsome
      show (match a.oldValue with
        | none => mapDelete st2.editedValues a.metricId
        | some u => mapSet st2.editedValues a.metricId u)
          = mapSet st2.editedValues a.metricId u
      rw [hsome]

/-- C3 counterexample: for a record with a defined original value and no
pending edit, the one appended action's "before" component is the wrapped
original value, not the no-pending-edit marker. -/
theorem before_state_not_marker_counterexample :
    mapGet freshGridState.editedValues dialsAliceEntry.id = none ∧
    (handleEdit dialsAliceEntry (some (JSVal.num 15)) freshGridState).undoStack
      = [{ metricId := "r1"
           oldValue := some { value_numeric := some 10, value_text := none }
           newValue := some { value_numeric := some 15, value_text := none } }] ∧
    (some { value_numeric := some 10, value_text := none } : Option MetricValueUpdate)
      ≠ none := by decide

/-- C3 witness: the amended theorem applied to the Alice edit, then to the
resulting one-action stack. -/
theorem applyEdit_logs_one_action_witness :
    (handleEdit dialsAliceEntry (some (JSVal.num 15)) freshGridState).undoStack
      = [{ metricId := "r1"
           oldValue := some { value_numeric := some 10, value_text := none }
           newValue := some { value_numeric := some 15, value_text := none } }] ∧
    (handleUndo (handleEdit dialsAliceEntry (some (JSVal.num 15)) freshGridState)).editedValues
      = mapSet (handleEdit dialsAliceEntry (some (JSVal.num 15)) freshGridState).editedValues
          "r1" { value_numeric := some 10, value_text := none } := by
  have h := applyEdit_logs_one_action_and_undo_restores dialsAliceEntry
    (some (JSVal.num 15)) freshGridState
  refine ⟨by decide, ?_⟩
  have h2 := (h.2 (handleEdit dialsAliceEntry (some (JSVal.num 15)) freshGridState)
    { metricId := "r1"
      oldValue := some { value_numeric := some 10, value_text := none }
      newValue := some { value_numeric := some 15, value_text := none } } (by decide)).2.2
  exact h2 { value_numeric := some 10, value_text := none } rfl

/-! ### Live aggregate recomputation -/

/-- A metric definition (the fields the aggregates computation reads). -/
structure MetricDefinition where
  key : String
  name : String := ""
  data_type : DataType
  emoji : Option String := none
deriving DecidableEq, Repr

/-- An agent row of the transformed table data. -/
structure AgentRow where
  id : String
  name : String := ""
  email : Option String := none
deriving DecidableEq, Repr

/-- The transformed table data consumed by the aggregates computation:
ordered agents, ordered metric definitions and the value map keyed by
the string `agentId_metricKey`. -/
structure TableData where
  agents : List AgentRow
  metricDefs : List MetricDefinition
  valueMap : List (String × HistoricMetricEntry)
deriving DecidableEq, Repr

/-- The per-agent step of the totals loop: adds the pending edit's numeric
value when the record is edited and that value is defined, otherwise the
original fetched numeric value when defined, otherwise skips the cell. -/
def aggStep (td : TableData) (editedValues : List (String × MetricValueUpdate))
    (md : MetricDefinition) (tc : Rat × Nat) (agent : AgentRow) : Rat × Nat :=
  match mapGet td.valueMap (agent.id ++ "_" ++ md.key) with
  | some entry =>
    if (mapGet editedValues entry.id).isSome then
      match (mapGet editedValues entry.id).bind (fun u => u.value_numeric) with
      | some q => (tc.1 + q, tc.2 + 1)
      | none => tc
    else
      match entry.value_numeric with
      | some q => (tc.1 + q, tc.2 + 1)
      | none => tc
  | none => tc

/-- The per-metric body of the first loop of `aggregates`: skips text-like
metrics, otherwise stores the accumulated total and count under the
metric's key. -/
def aggMetricFold (td : TableData) (editedValues : List (String × MetricValueUpdate))
    (acc : List (String × Rat) × List (String × Nat)) (md : MetricDefinition) :
    List (String × Rat) × List (String × Nat) :=
  if md.data_type == DataType.text || md.data_type == DataType.duration then acc
  else
    let tc := td.agents.foldl (aggStep td editedValues md) (0, 0)
    (mapSet acc.1 md.key tc.1, mapSet acc.2 md.key tc.2)

/-- The second loop of `aggregates`: for percentage metrics with a positive
count, replaces the total with the average `totals[key] / counts[key]`. -/
def aggPercentFold (counts : List (String × Nat))
    (totals : List (String × Rat)) (md : MetricDefinition) : List (String × Rat) :=
  if md.data_type == DataType.percentage && decide (0 < (mapGet counts md.key).getD 0) then
    mapSet totals md.key
      ((mapGet totals md.key).getD 0 / (((mapGet counts md.key).getD 0 : Nat) : Rat))
  else totals

/-- `aggregates`: the live totals row, recomputed from the table data and
the pending edits (the `useMemo` at lines 543-579 of the page). -/
def aggregates (td : TableData) (editedValues : List (String × MetricValueUpdate)) :
    List (String × Rat) :=
  let acc := td.metricDefs.foldl (aggMetricFold td editedValues) ([], [])
  td.metricDefs.foldl (aggPercentFold acc.2) acc.1

/-- Modelled from the spec: the effective numeric value of a cell — the
pending edit's value when the record is edited (a present-but-cleared edit
yields no value and does not fall back to the original), otherwise the
original fetched value. -/
def effectiveNumeric (editedValues : List (String × MetricValueUpdate))
    (entry : HistoricMetricEntry) : Option Rat :=
  if (mapGet editedValues entry.id).isSome then
    (mapGet editedValues entry.id).bind (fun u => u.value_numeric)
  else entry.value_numeric

/-- Modelled from the spec: the effective numeric value contributed by one
agent's cell of metric `md`, or `none` when the cell has no record or no
defined value. -/
def cellValue (td : TableData) (editedValues : List (String × MetricValueUpdate))
    (md : MetricDefinition) (agent : AgentRow) : Option Rat :=
  match mapGet td.valueMap (agent.id ++ "_" ++ md.key) with
  | some entry => effectiveNumeric editedValues entry
  | none => none

/-- Modelled from the spec: the list of included effective values of metric
`md`, across all agents, excluding cells with no defined value. -/
def includedValues (td : TableData) (editedValues : List (String × MetricValueUpdate))
    (md : MetricDefinition) : List Rat :=
  td.agents.filterMap (cellValue td editedValues md)

/-! ### Relating the imperative accumulation to the spec's sum/mean view -/

theorem aggStep_eq_cellValue (td : TableData) (ev : List (String × MetricValueUpdate))
    (md : MetricDefinition) (tc : Rat × Nat) (agent : AgentRow) :
    aggStep td ev md tc agent =
      match cellValue td ev md agent with
      | some q => (tc.1 + q, tc.2 + 1)
      | none => tc := by
  unfold aggStep cellValue effectiveNumeric
  cases hcell : mapGet td.valueMap (agent.id ++ "_" ++ md.key) with
  | none => rfl
  | some entry =>
    cases hev : mapGet ev entry.id with
    | none => simp [hev]
    | some u => simp [hev]

theorem aggStep_foldl (td : TableData) (ev : List (String × MetricValueUpdate))
    (md : MetricDefinition) :
    ∀ (ags : List AgentRow) (t : Rat) (c : Nat),
      ags.foldl (aggStep td ev md) (t, c)
        = (t + (ags.filterMap (cellValue td ev md)).sum,
           c + (ags.filterMap (cellValue td ev md)).length) := by
  intro ags
  induction ags with
  | nil => intro t c; simp
  | cons a ags ih =>
    intro t c
    rw [List.foldl_cons, aggStep_eq_cellValue]
    cases hc : cellValue td ev md a with
    | none => simp [List.filterMap_cons, hc, ih]
    | some q =>
      simp only [List.filterMap_cons, hc, ih, List.sum_cons, List.length_cons, Prod.mk.injEq]
      constructor
      · ring
      · omega

theorem aggMetricFold_foldl_skip (td : TableData) (ev : List (String × MetricValueUpdate)) :
    ∀ (defs : List MetricDefinition) (acc : List (String × Rat) × List (String × Nat))
      (k : String),
      (∀ d ∈ defs, d.key = k →
        (d.data_type == DataType.text || d.data_type == DataType.duration) = true) →
      mapGet (defs.foldl (aggMetricFold td ev) acc).1 k = mapGet acc.1 k ∧
      mapGet (defs.foldl (aggMetricFold td ev) acc).2 k = mapGet acc.2 k := by
  intro defs
  induction defs with
  | nil => exact fun acc k _ => ⟨rfl, rfl⟩
  | cons d ds ih =>
    intro acc k hk
    rw [List.foldl_cons]
    have hstep : mapGet (aggMetricFold td ev acc d).1 k = mapGet acc.1 k ∧
        mapGet (aggMetricFold td ev acc d).2 k = mapGet acc.2 k := by
      unfold aggMetricFold
      by_cases ht : (d.data_type == DataType.text || d.data_type == DataType.duration) = true
      · rw [if_pos ht]
        exact ⟨rfl, rfl⟩
      · rw [if_neg ht]
        have hdk : d.key ≠ k := fun hh => ht (hk d (List.mem_cons_self _ _) hh)
        have hkk : k ≠ d.key := fun hh => hdk hh.symm
        exact ⟨mapGet_set_ne _ _ _ _ hkk, mapGet_set_ne _ _ _ _ hkk⟩
    have hrest := ih (aggMetricFold td ev acc d) k
      (fun d' hd' => hk d' (List.mem_cons_of_mem _ hd'))
    exact ⟨hrest.1.trans hstep.1, hrest.2.trans hstep.2⟩

theorem aggMetricFold_foldl_self (td : TableData) (ev : List (String × MetricValueUpdate)) :
    ∀ (defs : List MetricDefinition) (acc : List (String × Rat) × List (String × Nat))
      (md : MetricDefinition),
      md ∈ defs →
      (defs.map (fun m => m.key)).Nodup →
      (md.data_type == DataType.text || md.data_type == DataType.duration) = false →
      mapGet (defs.foldl (aggMetricFold td ev) acc).1 md.key
        = some (includedValues td ev md).sum ∧
      mapGet (defs.foldl (aggMetricFold td ev) acc).2 md.key
        = some (includedValues td ev md).length := by
  intro defs
  induction defs with
  | nil => intro acc md h; cases h
  | cons d ds ih =>
    intro acc md hmem hnd htext
    have hnd' := hnd
    rw [List.map_cons, List.nodup_cons] at hnd'
    rw [List.foldl_cons]
    rcases List.mem_cons.mp hmem with heq | hmem'
    · subst heq
      have hnotin : ∀ d' ∈ ds, d'.key = md.key →
          (d'.data_type == DataType.text || d'.data_type == DataType.duration) = true := by
        intro d' hd' hkey
        exact absurd (hkey ▸ List.mem_map_of_mem (fun m => m.key) hd') hnd'.1
      have hstep1 : mapGet (aggMetricFold td ev acc md).1 md.key
          = some (includedValues td ev md).sum := by
        unfold aggMetricFold
        rw [if_neg (by simp [htext])]
        show mapGet (mapSet acc.1 md.key
          (td.agents.foldl (aggStep td ev md) (0, 0)).1) md.key = _
        rw [aggStep_foldl td ev md td.agents 0 0, mapGet_set_self]
        simp [includedValues]
      have hstep2 : mapGet (aggMetricFold td ev acc md).2 md.key
          = some (includedValues td ev md).length := by
        unfold aggMetricFold
        rw [if_neg (by simp [htext])]
        show mapGet (mapSet acc.2 md.key
          (td.agents.foldl (aggStep td ev md) (0, 0)).2) md.key = _
        rw [aggStep_foldl td ev md td.agents 0 0, mapGet_set_self]
        simp [includedValues]
      have hrest := aggMetricFold_foldl_skip td ev ds (aggMetricFold td ev acc md) md.key hnotin
      exact ⟨hrest.1.trans hstep1, hrest.2.trans hstep2⟩
    · refine ih (aggMetricFold td ev acc d) md hmem' hnd'.2 htext

theorem aggPercentFold_foldl_ne (counts : List (String × Nat)) :
    ∀ (defs : List MetricDefinition) (totals : List (String × Rat)) (k : String),
      (∀ d ∈ defs, d.key ≠ k) →
      mapGet (defs.foldl (aggPercentFold counts) totals) k = mapGet totals k := by
  intro defs
  induction defs with
  | nil => exact fun totals k _ => rfl
  | cons d ds ih =>
    intro totals k hk
    rw [List.foldl_cons]
    have hstep : mapGet (aggPercentFold counts totals d) k = mapGet totals k := by
      unfold aggPercentFold
      by_cases hc : (d.data_type == DataType.percentage
          && decide (0 < (mapGet counts d.key).getD 0)) = true
      · rw [if_pos hc]
        exact mapGet_set_ne _ _ _ _ (fun hh => hk d (List.mem_cons_self _ _) hh.symm)
      · rw [if_neg hc]
    exact (ih (aggPercentFold counts totals d) k
      (fun d' hd' => hk d' (List.mem_cons_of_mem _ hd'))).trans hstep

theorem aggPercentFold_foldl_get (counts : List (String × Nat)) :
    ∀ (defs : List MetricDefinition) (totals : List (String × Rat))
      (md : MetricDefinition),
      md ∈ defs →
      (defs.map (fun m => m.key)).Nodup →
      mapGet (defs.foldl (aggPercentFold counts) totals) md.key =
        if md.data_type == DataType.percentage
            && decide (0 < (mapGet counts md.key).getD 0) then
          some ((mapGet totals md.key).getD 0
            / (((mapGet counts md.key).getD 0 : Nat) : Rat))
        else mapGet totals md.key := by
  intro defs
  induction defs with
  | nil => intro totals md h; cases h
  | cons d ds ih =>
    intro totals md hmem hnd
    have hnd' := hnd
    rw [List.map_cons, List.nodup_cons] at hnd'
    rw [List.foldl_cons]
    rcases List.mem_cons.mp hmem with heq | hmem'
    · subst heq
      have hnotin : ∀ d' ∈ ds, d'.key ≠ md.key := by
        intro d' hd' hkey
        exact absurd (hkey ▸ List.mem_map_of_mem (fun m => m.key) hd') hnd'.1
      rw [aggPercentFold_foldl_ne counts ds _ md.key hnotin]
      unfold aggPercentFold
      by_cases hc : (md.data_type == DataType.percentage
          && decide (0 < (mapGet counts md.key).getD 0)) = true
      · rw [if_pos hc, if_pos hc, mapGet_set_self]
      · rw [if_neg hc, if_neg hc]
    · have hdk : d.key ≠ md.key := by
        intro hkey
        exact absurd (hkey ▸ List.mem_map_of_mem (fun m => m.key) hmem') hnd'.1
      have hstep : mapGet (aggPercentFold counts totals d) md.key = mapGet totals md.key := by
        unfold aggPercentFold
        by_cases hc : (d.data_type == DataType.percentage
            && decide (0 < (mapGet counts d.key).getD 0)) = true
        · rw [if_pos hc]
          exact mapGet_set_ne _ _ _ _ (fun hh => hdk hh.symm)
        · rw [if_neg hc]
      rw [ih (aggPercentFold counts totals d) md hmem' hnd'.2, hstep]

/-- The aggregate of a text-like metric: no entry is produced. -/
theorem aggregates_get_textlike (td : TableData) (ev : List (String × MetricValueUpdate))
    (md : MetricDefinition) (hmem : md ∈ td.metricDefs)
    (hnd : (td.metricDefs.map (fun m => m.key)).Nodup)
    (htext : (md.data_type == DataType.text || md.data_type == DataType.duration) = true) :
    mapGet (aggregates td ev) md.key = none := by
  unfold aggregates
  have hskip : ∀ d ∈ td.metricDefs, d.key = md.key →
      (d.data_type == DataType.text || d.data_type == DataType.duration) = true := by
    intro d hd hkey
    have : d = md := List.inj_on_of_nodup_map hnd hd hmem hkey
    rw [this]
    exact htext
  have h1 := aggMetricFold_foldl_skip td ev td.metricDefs ([], []) md.key hskip
  have hpct : (md.data_type == DataType.percentage) = false := by
    rcases Bool.or_eq_true_iff.mp htext with h | h
    · rw [show md.data_type = DataType.text from by simpa using h]; rfl
    · rw [show md.data_type = DataType.duration from by simpa using h]; rfl
  rw [aggPercentFold_foldl_get _ td.metricDefs _ md hmem hnd, hpct]
  simpa using h1.1

/-- The aggregate of an integer or decimal metric is the sum of the included
effective values. -/
theorem aggregates_get_sum (td : TableData) (ev : List (String × MetricValueUpdate))
    (md : MetricDefinition) (hmem : md ∈ td.metricDefs)
    (hnd : (td.metricDefs.map (fun m => m.key)).Nodup)
    (hkind : md.data_type = DataType.integer ∨ md.data_type = DataType.decimal) :
    mapGet (aggregates td ev) md.key = some (includedValues td ev md).sum := by
  unfold aggregates
  have htext : (md.data_type == DataType.text || md.data_type == DataType.duration) = false := by
    rcases hkind with h | h <;> rw [h] <;> rfl
  have hpct : (md.data_type == DataType.percentage) = false := by
    rcases hkind with h | h <;> rw [h] <;> rfl
  have h1 := aggMetricFold_foldl_self td ev td.metricDefs ([], []) md hmem hnd htext
  rw [aggPercentFold_foldl_get _ td.metricDefs _ md hmem hnd, hpct]
  simpa using h1.1

/-- The aggregate of a percentage metric: the mean of the included effective
values when the count is positive, and the bare (zero) sum otherwise. -/
theorem aggregates_get_percentage (td : TableData) (ev : List (String × MetricValueUpdate))
    (md : MetricDefinition) (hmem : md ∈ td.metricDefs)
    (hnd : (td.metricDefs.map (fun m => m.key)).Nodup)
    (hpct : md.data_type = DataType.percentage) :
    mapGet (aggregates td ev) md.key =
      if 0 < (includedValues td ev md).length then
        some ((includedValues td ev md).sum / ((includedValues td ev md).length : Rat))
      else some (includedValues td ev md).sum := by
  unfold aggregates
  have htext : (md.data_type == DataType.text || md.data_type == DataType.duration) = false := by
    rw [hpct]; rfl
  have hpct' : (md.data_type == DataType.percentage) = true := by
    rw [hpct]; rfl
  have h1 := aggMetricFold_foldl_self td ev td.metricDefs ([], []) md hmem hnd htext
  rw [aggPercentFold_foldl_get _ td.metricDefs _ md hmem hnd, hpct', h1.1, h1.2]
  by_cases hlen : 0 < (includedValues td ev md).length
  · rw [if_pos hlen, if_pos (by simpa using hlen)]
    simp
  · rw [if_neg hlen, if_neg (by simpa using hlen)]

/-! ### Concrete table fixtures and the aggregate claims -/

/-- Alice's agent row. -/
def aliceRow : AgentRow := { id := "a1", name := "Alice" }

/-- Bob's agent row. -/
def bobRow : AgentRow := { id := "a2", name := "Bob" }

/-- The integer metric "Dials". -/
def dialsMetricDef : MetricDefinition :=
  { key := "dials", name := "Dials", data_type := DataType.integer }

/-- Table data for the spec's example: agents [Alice, Bob], one integer
metric "Dials", Alice = 10, Bob = 20. -/
def dialsTable : TableData :=
  { agents := [aliceRow, bobRow]
    metricDefs := [dialsMetricDef]
    valueMap := [("a1_dials", dialsAliceEntry), ("a2_dials", dialsBobEntry)] }

/-- The percentage metric "Conv". -/
def convMetricDef : MetricDefinition :=
  { key := "conv", name := "Conv", data_type := DataType.percentage }

/-- Alice's record for the percentage metric "Conv", fetched value 50. -/
def convAliceEntry : HistoricMetricEntry :=
  { id := "p1", agent_id := "a1", metric_key := "conv",
    data_type := DataType.percentage, value_numeric := some 50 }

/-- Bob's record for the percentage metric "Conv", fetched value 30. -/
def convBobEntry : HistoricMetricEntry :=
  { id := "p2", agent_id := "a2", metric_key := "conv",
    data_type := DataType.percentage, value_numeric := some 30 }

/-- Table data with one percentage metric over [Alice, Bob]. -/
def convTable : TableData :=
  { agents := [aliceRow, bobRow]
    metricDefs := [convMetricDef]
    valueMap := [("a1_conv", convAliceEntry), ("a2_conv", convBobEntry)] }

/-- Table data with one percentage metric and no value records at all. -/
def emptyConvTable : TableData :=
  { agents := [aliceRow]
    metricDefs := [convMetricDef]
    valueMap := [] }

section ConcreteEvaluation

unseal Rat.add Rat.mul Rat.inv

/-- C4: for integer and decimal metrics the aggregate is the sum of the
included effective cell values (pending edit's value if present and
defined, otherwise the original fetched value if defined, cells with no
defined value excluded from sum and count); for percentage metrics with a
positive count it is the mean (sum divided by count); text-like kinds
produce no aggregate. On the Alice/Bob "Dials" example: 30 initially, 35
after `applyEdit(Alice's record, 15)`, and 30 again after `undo()`. -/
theorem computeAggregates_characterization_and_example :
    (∀ (td : TableData) (ev : List (String × MetricValueUpdate)) (md : MetricDefinition),
      md ∈ td.metricDefs → (td.metricDefs.map (fun m => m.key)).Nodup →
      ((md.data_type = DataType.integer ∨ md.data_type = DataType.decimal) →
        mapGet (aggregates td ev) md.key = some (includedValues td ev md).sum) ∧
      (md.data_type = DataType.percentage → (includedValues td ev md).length ≠ 0 →
        mapGet (aggregates td ev) md.key
          = some ((includedValues td ev md).sum / ((includedValues td ev md).length : Rat))) ∧
      ((md.data_type = DataType.text ∨ md.data_type = DataType.duration) →
        mapGet (aggregates td ev) md.key = none)) ∧
    (mapGet (aggregates dialsTable freshGridState.editedValues) "dials" = some 30 ∧
      mapGet (aggregates dialsTable
        (handleEdit dialsAliceEntry (some (JSVal.num 15)) freshGridState).editedValues) "dials"
        = some 35 ∧
      mapGet (aggregates dialsTable
        (undoN 1 (applyAll [(dialsAliceEntry, some (JSVal.num 15))] freshGridState)).editedValues)
        "dials" = some 30) := by
  constructor
  · intro td ev md hmem hnd
    refine ⟨?_, ?_, ?_⟩
    · exact fun hkind => aggregates_get_sum td ev md hmem hnd hkind
    · intro hpct hne
      rw [aggregates_get_percentage td ev md hmem hnd hpct,
        if_pos (Nat.pos_of_ne_zero hne)]
    · intro hkind
      apply aggregates_get_textlike td ev md hmem hnd
      rcases hkind with h | h <;> rw [h] <;> rfl
  · exact ⟨by decide, by decide, by decide⟩

/-- C4 witness: the characterization applied to the concrete Dials table. -/
theorem computeAggregates_characterization_witness :
    mapGet (aggregates dialsTable []) dialsMetricDef.key
      = some (includedValues dialsTable [] dialsMetricDef).sum :=
  (computeAggregates_characterization_and_example.1 dialsTable [] dialsMetricDef
    (by decide) (by decide)).1 (Or.inl rfl)

/-- C9: the aggregate computation never divides by zero — for a
percentage metric whose included-cell count is zero the mean step is
skipped and the reported aggregate is exactly `0`. -/
theorem percentage_zero_count_aggregate_zero
    (td : TableData) (ev : List (String × MetricValueUpdate)) (md : MetricDefinition)
    (hmem : md ∈ td.metricDefs) (hnd : (td.metricDefs.map (fun m => m.key)).Nodup)
    (hpct : md.data_type = DataType.percentage)
    (hempty : includedValues td ev md = []) :
    mapGet (aggregates td ev) md.key = some 0 := by
  rw [aggregates_get_percentage td ev md hmem hnd hpct, hempty]
  rw [if_neg (by simp)]
  simp

/-- C9 witness: a percentage metric with no included cells reports 0. -/
theorem percentage_zero_count_witness :
    mapGet (aggregates emptyConvTable []) convMetricDef.key = some 0 :=
  percentage_zero_count_aggregate_zero emptyConvTable [] convMetricDef
    (by decide) (by decide) rfl (by decide)

/-- C10: a present-but-cleared pending edit (numeric value `undefined`)
excludes the cell from the aggregate even when the original fetched value
is defined — it does not fall back to the original. Concretely: clearing
Alice's Dials cell yields 20 (Bob only), and clearing Alice's Conv cell
moves the percentage mean from 40 (both cells) to 30 (Bob's cell alone),
showing the cell leaves both the sum and the count. -/
theorem cleared_pending_edit_excluded :
    (∀ (ev : List (String × MetricValueUpdate)) (entry : HistoricMetricEntry)
        (u : MetricValueUpdate) (q : Rat),
      mapGet ev entry.id = some u → u.value_numeric = none →
      entry.value_numeric = some q →
      effectiveNumeric ev entry = none) ∧
    (mapGet (aggregates dialsTable
        [("r1", { value_numeric := none, value_text := none })]) "dials" = some 20 ∧
      mapGet (aggregates convTable []) "conv" = some 40 ∧
      mapGet (aggregates convTable
        [("p1", { value_numeric := none, value_text := none })]) "conv" = some 30) := by
  constructor
  · intro ev entry u q hget hu _
    unfold effectiveNumeric
    rw [hget]
    simp [hu]
  · exact ⟨by decide, by decide, by decide⟩

/-- C10 witness: Alice's cleared Dials edit yields no effective value even
though the original fetched value 10 is defined. -/
theorem cleared_pending_edit_excluded_witness :
    effectiveNumeric [("r1", { value_numeric := none, value_text := none })]
      dialsAliceEntry = none :=
  cleared_pending_edit_excluded.1 _ dialsAliceEntry
    { value_numeric := none, value_text := none } 10 (by decide) rfl (by decide)

end ConcreteEvaluation

/-! ### Saving

`handleSave` captures the saved ids before the `try`, sends the batch to
the Persistence Sink, and on success clears the edit state, marks the saved
ids for a 2-second highlight, and re-fetches the snapshot; on failure only
the error message changes. The sink call's outcome is passed in as an
`Except` value and the timer / re-fetch side effects are returned as an
explicit effect list. -/

/-- The page state touched by `handleSave`. -/
structure SaveState where
  editedValues : List (String × MetricValueUpdate) := []
  undoStack : List EditAction := []
  saving : Bool := false
  saveSuccess : Bool := false
  error : Option String := none
  justSavedIds : List String := []
deriving DecidableEq, Repr

/-- The side effects issued by `handleSave`, in order. -/
inductive SaveEffect
  | bulkUpdate (updates : List (String × MetricValueUpdate))
  | clearJustSavedAfterMs (ms : Nat)
  | refetchSnapshot
  | hideSuccessAfterMs (ms : Nat)
deriving DecidableEq, Repr

/-- `handleSave`: early return when there is nothing to save; otherwise the
ids are captured from `editedValues`, the batch is sent, and the state is
updated according to the sink's outcome. -/
def handleSave (st : SaveState) (sink : Except String Unit) :
    SaveState × List SaveEffect :=
  if st.editedValues.length = 0 then (st, [])
  else
    let savedIds := st.editedValues.map (fun p => p.1)
    let updates := st.editedValues
    match sink with
    | Except.ok _ =>
      ({ st with
          saving := false
          saveSuccess := true
          error := none
          editedValues := []
          undoStack := []
          justSavedIds := savedIds },
       [SaveEffect.bulkUpdate updates, SaveEffect.clearJustSavedAfterMs 2000,
        SaveEffect.refetchSnapshot, SaveEffect.hideSuccessAfterMs 3000])
    | Except.error msg =>
      ({ st with saving := false, saveSuccess := false, error := some msg },
       [SaveEffect.bulkUpdate updates])

/-- The deferred `setJustSavedIds(new Set())` fired by the 2-second timer. -/
def clearJustSaved (st : SaveState) : SaveState := { st with justSavedIds := [] }

/-- C5: after a successful save, `pendingEdits` and `undoStack` are both
empty, the just-saved marker set is exactly the set of record ids that were
pending when the save was issued, a 2-second timer that clears the marking
is scheduled (and clearing it empties the marker set), and a snapshot
re-fetch is triggered. -/
theorem save_success_clears_state_and_marks
    (st : SaveState) (hne : st.editedValues ≠ []) :
    (handleSave st (Except.ok ())).1.editedValues = [] ∧
    (handleSave st (Except.ok ())).1.undoStack = [] ∧
    (handleSave st (Except.ok ())).1.justSavedIds
      = st.editedValues.map (fun p => p.1) ∧
    SaveEffect.clearJustSavedAfterMs 2000 ∈ (handleSave st (Except.ok ())).2 ∧
    SaveEffect.refetchSnapshot ∈ (handleSave st (Except.ok ())).2 ∧
    (clearJustSaved (handleSave st (Except.ok ())).1).justSavedIds = [] := by
  have hlen : ¬ st.editedValues.length = 0 := by
    simpa [List.length_eq_zero] using hne
  unfold handleSave
  rw [if_neg hlen]
  refine ⟨rfl, rfl, rfl, ?_, ?_, rfl⟩
  · simp
  · simp

/-- C5 witness: a concrete save of `{A: 5, B: "x"}` against a succeeding
sink. -/
theorem save_success_witness :
    (handleSave
      { editedValues := [("A", { value_numeric := some 5, value_text := none }),
                         ("B", { value_numeric := none, value_text := some "x" })]
        undoStack := [] } (Except.ok ())).1.justSavedIds = ["A", "B"] :=
  (save_success_clears_state_and_marks _ (by decide)).2.2.1

/-- C6: when the Persistence Sink throws, `pendingEdits` and `undoStack`
are left exactly unchanged and the failure is surfaced as a reportable
error message. -/
theorem save_failure_preserves_state
    (st : SaveState) (msg : String) (hne : st.editedValues ≠ []) :
    (handleSave st (Except.error msg)).1.editedValues = st.editedValues ∧
    (handleSave st (Except.error msg)).1.undoStack = st.undoStack ∧
    (handleSave st (Except.error msg)).1.error = some msg := by
  have hlen : ¬ st.editedValues.length = 0 := by
    simpa [List.length_eq_zero] using hne
  unfold handleSave
  rw [if_neg hlen]
  exact ⟨rfl, rfl, rfl⟩

/-- C6 witness: `save()` with the two edits `{A: 5, B: "x"}` against a
throwing sink keeps both edits and the undo stack unchanged. -/
theorem save_failure_witness :
    (handleSave
      { editedValues := [("A", { value_numeric := some 5, value_text := none }),
                         ("B", { value_numeric := none, value_text := some "x" })]
        undoStack := [{ metricId := "A"
                        oldValue := none
                        newValue := some { value_numeric := some 5, value_text := none } }] }
      (Except.error "boom")).1.editedValues
      = [("A", { value_numeric := some 5, value_text := none }),
         ("B", { value_numeric := none, value_text := some "x" })] ∧
    (handleSave
      { editedValues := [("A", { value_numeric := some 5, value_text := none }),
                         ("B", { value_numeric := none, value_text := some "x" })]
        undoStack := [{ metricId := "A"
                        oldValue := none
                        newValue := some { value_numeric := some 5, value_text := none } }] }
      (Except.error "boom")).1.undoStack
      = [{ metricId := "A"
           oldValue := none
           newValue := some { value_numeric := some 5, value_text := none } }] := by
  have h := save_failure_preserves_state
    { editedValues := [("A", { value_numeric := some 5, value_text := none }),
                       ("B", { value_numeric := none, value_text := some "x" })]
      undoStack := [{ metricId := "A"
                      oldValue := none
                      newValue := some { value_numeric := some 5, value_text := none } }] }
    "boom" (by decide)
  exact ⟨h.1, h.2.1⟩

/-! ### Keyboard navigation -/

/-- The six navigation directions of `handleKeyNav`. -/
inductive NavDirection
  | up
  | down
  | left
  | right
  | next
  | prev
deriving DecidableEq, Repr

/-- `handleKeyNav`: the `(agentIndex, metricIndex)` position computation of
the keyboard-navigation handler (the focus/select side effects are not part
of the position contract). Indices are integers as in the source. -/
def handleKeyNav (numAgents numMetrics agentIndex metricIndex : Int)
    (dir : NavDirection) : Int × Int :=
  match dir with
  | NavDirection.up => (max 0 (agentIndex - 1), metricIndex)
  | NavDirection.down => (min (numAgents - 1) (agentIndex + 1), metricIndex)
  | NavDirection.left | NavDirection.prev =>
    if metricIndex > 0 then (agentIndex, metricIndex - 1)
    else if agentIndex > 0 then (agentIndex - 1, numMetrics - 1)
    else (agentIndex, metricIndex)
  | NavDirection.right | NavDirection.next =>
    if metricIndex < numMetrics - 1 then (agentIndex, metricIndex + 1)
    else if agentIndex < numAgents - 1 then (agentIndex + 1, 0)
    else (agentIndex, metricIndex)

/-- C7: for every in-bounds position, `up` and `down` move one row clamped
at the first and last row without wrapping; `next` moves one column right
within a row, wraps from the last column of a non-last row to the first
column of the next row, and is a no-op on the last cell of the last row;
`prev` is symmetric and never wraps past the first cell of the grid. -/
theorem handleKeyNav_contract
    (numAgents numMetrics agentIndex metricIndex : Int)
    (ha0 : 0 ≤ agentIndex) (ha : agentIndex < numAgents)
    (hm0 : 0 ≤ metricIndex) (hm : metricIndex < numMetrics) :
    (handleKeyNav numAgents numMetrics agentIndex metricIndex NavDirection.up
      = (if agentIndex = 0 then 0 else agentIndex - 1, metricIndex)) ∧
    (handleKeyNav numAgents numMetrics agentIndex metricIndex NavDirection.down
      = (if agentIndex = numAgents - 1 then agentIndex else agentIndex + 1, metricIndex)) ∧
    (metricIndex < numMetrics - 1 →
      handleKeyNav numAgents numMetrics agentIndex metricIndex NavDirection.next
        = (agentIndex, metricIndex + 1)) ∧
    (metricIndex = numMetrics - 1 → agentIndex < numAgents - 1 →
      handleKeyNav numAgents numMetrics agentIndex metricIndex NavDirection.next
        = (agentIndex + 1, 0)) ∧
    (metricIndex = numMetrics - 1 → agentIndex = numAgents - 1 →
      handleKeyNav numAgents numMetrics agentIndex metricIndex NavDirection.next
        = (agentIndex, metricIndex)) ∧
    (0 < metricIndex →
      handleKeyNav numAgents numMetrics agentIndex metricIndex NavDirection.prev
        = (agentIndex, metricIndex - 1)) ∧
    (metricIndex = 0 → 0 < agentIndex →
      handleKeyNav numAgents numMetrics agentIndex metricIndex NavDirection.prev
        = (agentIndex - 1, numMetrics - 1)) ∧
    (metricIndex = 0 → agentIndex = 0 →
      handleKeyNav numAgents numMetrics agentIndex metricIndex NavDirection.prev
        = (agentIndex, metricIndex)) := by
  refine ⟨?_, ?_, ?_, ?_, ?_, ?_, ?_, ?_⟩
  · simp only [handleKeyNav]
    by_cases h : agentIndex = 0
    · rw [if_pos h, h]
      simp
    · rw [if_neg h]
      have : (0 : Int) ≤ agentIndex - 1 := by omega
      rw [max_eq_right this]
  · simp only [handleKeyNav]
    by_cases h : agentIndex = numAgents - 1
    · rw [if_pos h]
      have : numAgents - 1 ≤ agentIndex + 1 := by omega
      rw [min_eq_left this, h]
    · rw [if_neg h]
      have : agentIndex + 1 ≤ numAgents - 1 := by omega
      rw [min_eq_right this]
  · intro h
    simp only [handleKeyNav]
    rw [if_pos h]
  · intro h1 h2
    simp only [handleKeyNav]
    rw [if_neg (by omega), if_pos h2]
  · intro h1 h2
    simp only [handleKeyNav]
    rw [if_neg (by omega), if_neg (by omega)]
  · intro h
    simp only [handleKeyNav]
    rw [if_pos h]
  · intro h1 h2
    simp only [handleKeyNav]
    rw [if_neg (by omega), if_pos h2]
  · intro h1 h2
    simp only [handleKeyNav]
    rw [if_neg (by omega), if_neg (by omega)]

/-- C7 witness: a 2-by-3 grid — advance from the end of the first row wraps
to the start of the second row, and advance from the last cell is a no-op. -/
theorem handleKeyNav_contract_witness :
    handleKeyNav 2 3 0 2 NavDirection.next = (1, 0) ∧
    handleKeyNav 2 3 1 2 NavDirection.next = (1, 2) := by
  constructor
  · exact (handleKeyNav_contract 2 3 0 2 (by decide) (by decide) (by decide)
      (by decide)).2.2.2.1 rfl (by decide)
  · exact (handleKeyNav_contract 2 3 1 2 (by decide) (by decide) (by decide)
      (by decide)).2.2.2.2.1 rfl rfl

/-! ### Committing a cell's text input -/

/-- The longest leading run of decimal digits of a character list, with the
rest. -/
def takeDigits : List Char → List Char × List Char
  | [] => ([], [])
  | c :: cs =>
    if c.isDigit then
      let (d, r) := takeDigits cs
      (c :: d, r)
    else ([], c :: cs)

/-- The natural number denoted by a list of decimal digits. -/
def digitsToNat (ds : List Char) : Nat :=
  ds.foldl (fun n c => n * 10 + (c.toNat - 48)) 0

/-- The JavaScript `parseFloat` builtin on the grammar the grid's numeric
inputs produce: optional leading whitespace, an optional sign, decimal
digits with an optional fraction and an optional exponent, ignoring
trailing garbage; `none` stands for `NaN` (no parsable prefix). Numbers are
idealized as rationals. -/
def jsParseFloat (s : String) : Option Rat :=
  let cs := s.toList.dropWhile (fun c => c == ' ' || c == '\t' || c == '\n' || c == '\r')
  let (sign, cs) : Rat × List Char :=
    match cs with
    | '+' :: r => (1, r)
    | '-' :: r => (-1, r)
    | _ => (1, cs)
  let (intDigits, cs) := takeDigits cs
  let (fracDigits, cs) :=
    match cs with
    | '.' :: r => takeDigits r
    | _ => ([], cs)
  if intDigits = [] ∧ fracDigits = [] then none
  else
    let mantissa : Rat :=
      (digitsToNat intDigits : Rat)
        + (digitsToNat fracDigits : Rat) / ((10 : Rat) ^ fracDigits.length)
    let exponent : Int :=
      match cs with
      | 'e' :: r | 'E' :: r =>
        let (esign, r2) : Int × List Char :=
          match r with
          | '+' :: rr => (1, rr)
          | '-' :: rr => (-1, rr)
          | _ => (1, r)
        let (expDigits, _) := takeDigits r2
        if expDigits = [] then 0 else esign * (digitsToNat expDigits : Int)
      | _ => 0
    let scaled : Rat :=
      if 0 ≤ exponent then mantissa * (10 : Rat) ^ exponent.toNat
      else mantissa / (10 : Rat) ^ (-exponent).toNat
    some (sign * scaled)

/-- `commitValue` of the editable cell: text-like cells commit
`localValue || undefined`; numeric cells commit `parseFloat(localValue)`,
treating `NaN` as `undefined` (value cleared). -/
def commitValue (dataType : DataType) (localValue : String) : Option JSVal :=
  if dataType == DataType.text || dataType == DataType.duration then
    if localValue = "" then none else some (JSVal.str localValue)
  else
    match jsParseFloat localValue with
    | none => none
    | some q => some (JSVal.num q)

/-- C8: for every numeric-kind cell, committing an unparsable numeric text
input produces the cleared value (`undefined`), never a number and never an
error — the validation failure is resolved locally. -/
theorem commit_unparsable_numeric_clears
    (dataType : DataType) (localValue : String)
    (hkind : dataType = DataType.integer ∨ dataType = DataType.decimal ∨
      dataType = DataType.percentage)
    (hnan : jsParseFloat localValue = none) :
    commitValue dataType localValue = none := by
  unfold commitValue
  have htext : (dataType == DataType.text || dataType == DataType.duration) = false := by
    rcases hkind with h | h | h <;> rw [h] <;> rfl
  rw [htext, hnan]
  rfl

/-- C8 witness: committing the unparsable input `"abc"` into an integer
cell clears the value. -/
theorem commit_unparsable_numeric_clears_witness :
    commitValue DataType.integer "abc" = none :=
  commit_unparsable_numeric_clears DataType.integer "abc" (Or.inl rfl) (by decide)

end DailyUpdateAdmin
